import Mathlib

/-!
Shallow embedding of the story-gen interactive-fiction client
(src/app.rs, src/api.rs, src/config.rs).  Rust strings are modelled as
`List Char`; `serde_json::Value` is modelled by the inductive `Json`.
Each definition mirrors one function of the source, keeping its name.
-/

set_option maxRecDepth 10000

/-- The apostrophe character (U+0027), used in several source string literals. -/
def apos : Char := Char.ofNat 39

/-- Rust `char::is_whitespace` (the Unicode White_Space property). -/
def isRustWs (c : Char) : Bool :=
  (9 ≤ c.toNat && c.toNat ≤ 13) || c.toNat = 32 || c.toNat = 133 || c.toNat = 160 ||
  c.toNat = 5760 || (8192 ≤ c.toNat && c.toNat ≤ 8202) || c.toNat = 8232 ||
  c.toNat = 8233 || c.toNat = 8239 || c.toNat = 8287 || c.toNat = 12288

/-- Rust `str::trim_start`. -/
def trimStartL (l : List Char) : List Char := l.dropWhile isRustWs

/-- Rust `str::trim_end`. -/
def trimEndL (l : List Char) : List Char := (l.reverse.dropWhile isRustWs).reverse

/-- Rust `str::trim`. -/
def trimL (l : List Char) : List Char := trimEndL (trimStartL l)

/-- Rust `char::to_ascii_lowercase`; also models `str::to_lowercase` charwise
(the source only ever lowercases ASCII text). -/
def lowerChar (c : Char) : Char := c.toLower

/-- Rust `str::to_lowercase`, modelled on the ASCII range. -/
def lowerL (l : List Char) : List Char := l.map lowerChar

/-- Rust `str::eq_ignore_ascii_case`. -/
def eqIC (a b : List Char) : Bool := lowerL a = lowerL b

/-- Rust `str::split_once(c)`: split at the first occurrence of `c`. -/
def splitOnceAt (c : Char) : List Char → Option (List Char × List Char)
  | [] => none
  | x :: xs =>
    if x = c then some ([], xs)
    else (splitOnceAt c xs).map (fun p => (x :: p.1, p.2))

/-- Rust `str::find(pat)` for a substring pattern: index of the first match. -/
def findSub (pat : List Char) : List Char → Option Nat
  | [] => if pat.isPrefixOf ([] : List Char) then some 0 else none
  | c :: t =>
    if pat.isPrefixOf (c :: t) then some 0
    else (findSub pat t).map (· + 1)

/-- Rust `str::contains(pat)` for a substring pattern. -/
def containsSub (pat l : List Char) : Bool := (findSub pat l).isSome

/-- Split a character list at every newline, keeping empty segments
(`n` newlines yield `n+1` segments). -/
def splitNl : List Char → List (List Char)
  | [] => [[]]
  | c :: t =>
    let r := splitNl t
    if c = '\n' then [] :: r else (c :: r.headD []) :: r.tail

/-- Rust `str::lines` strips one trailing carriage return from each line. -/
def stripCr (l : List Char) : List Char :=
  if l.getLast? = some '\r' then l.dropLast else l

/-- Rust `str::lines`: split on newlines, drop the segment after a final
newline, strip one trailing carriage return per line. -/
def rustLines (t : List Char) : List (List Char) :=
  let ps := splitNl t
  let ps := if ps.getLast? = some ([] : List Char) then ps.dropLast else ps
  ps.map stripCr

/-- Rust `str::split_whitespace().next().unwrap_or("")`: the first
whitespace-delimited token, or empty. -/
def firstWsToken (l : List Char) : List Char :=
  (l.dropWhile isRustWs).takeWhile (fun c => !isRustWs c)

/-- Rust `str::trim_matches(p)`: strip characters matching `p` from both ends. -/
def trimMatchesP (p : Char → Bool) (l : List Char) : List Char :=
  ((l.dropWhile p).reverse.dropWhile p).reverse

/-- Fuel-driven loop of `trimStartMatches`; each successful strip removes at
least one character, so `l.length` fuel always suffices. -/
def trimStartMatchesAux (pat : List Char) : Nat → List Char → List Char
  | 0, l => l
  | fuel + 1, l =>
    if pat.isPrefixOf l then trimStartMatchesAux pat fuel (l.drop pat.length)
    else l

/-- Rust `str::trim_start_matches(pat)`: repeatedly strip a leading `pat`
(a nonempty pattern; the source only uses the pattern `"you "`). -/
def trimStartMatches (pat : List Char) (l : List Char) : List Char :=
  if pat.isEmpty then l else trimStartMatchesAux pat l.length l

/-! ## app.rs: the dialogue attribution parser -/

/-- `is_narrator_label` from app.rs. -/
def is_narrator_label (label : List Char) : Bool :=
  eqIC (trimL label) "narrator".data

/-- `is_disallowed_speaker` from app.rs. -/
def is_disallowed_speaker (label : List Char) : Bool :=
  let trimmed := trimL label
  eqIC trimmed "you".data || eqIC trimmed "player".data || eqIC trimmed "user".data

/-- The admissible label characters of `parse_speaker_label` (app.rs):
alphanumerics, spaces, apostrophes, hyphens. -/
def labelChar (ch : Char) : Bool :=
  ch.isAlphanum || ch = ' ' || ch = apos || ch = '-'

/-- `parse_speaker_label` from app.rs: leading `Speaker: rest` label of a line.
The Rust byte-length bound `label.len() > 40` is modelled as a character
count, and `char::is_alphabetic` / `char::is_alphanumeric` on the ASCII
range. -/
def parse_speaker_label (line : List Char) : Option (List Char × List Char) :=
  let trimmed := trimStartL line
  match splitOnceAt ':' trimmed with
  | none => none
  | some (label, rest) =>
    let label := trimL label
    if label.isEmpty || label.length > 40 then none
    else if !label.any Char.isAlpha then none
    else if !label.all labelChar then
      none
    else
      let normalized := if is_narrator_label label then "Narrator".data else label
      some (normalized, trimStartL rest)

/-- The fixed action-verb vocabulary of `starts_with_you_action` (app.rs). -/
def action_verbs : List (List Char) :=
  ["pick".data, "grab".data, "scoop".data, "tuck".data, "walk".data, "step".data,
   "run".data, "head".data, "move".data, "take".data, "reach".data, "turn".data,
   "open".data, "close".data, "enter".data, "leave".data, "slip".data, "push".data,
   "pull".data, "drop".data, "pocket".data, "lift".data, "set".data, "place".data,
   "climb".data, "kneel".data, "sit".data, "stand".data, "backflip".data,
   "sprint".data, "brush".data, "touch".data, "aim".data, "throw".data,
   "swing".data, "carry".data, "stow".data, "hold".data]

/-- `starts_with_you_action` from app.rs. -/
def starts_with_you_action (text : List Char) : Bool :=
  let lower := lowerL (trimStartL text)
  if !("you ".data.isPrefixOf lower) then false
  else
    let rest := trimStartL (trimStartMatches "you ".data lower)
    let verb := trimMatchesP (fun ch => !ch.isAlphanum) (firstWsToken rest)
    !verb.isEmpty && action_verbs.any (fun a => a = verb)

/-- `split_first_sentence` from app.rs: split at the earliest of
`. `, `? `, `! ` (each a two-character boundary). -/
def split_first_sentence (text : List Char) : List Char × Option (List Char) :=
  let i1 := findSub ". ".data text
  let i2 := findSub "? ".data text
  let i3 := findSub "! ".data text
  let best := [i1, i2, i3].foldl
    (fun acc i => match acc, i with
      | none, i => i
      | some b, none => some b
      | some b, some i => if i < b then some i else some b) none
  match best with
  | some idx =>
    let narration := trimL (text.take (idx + 1))
    let rest := trimL (text.drop (idx + 2))
    (narration, if rest.isEmpty then none else some rest)
  | none => (trimL text, none)

/-- `split_misattributed_narration` from app.rs. -/
def split_misattributed_narration (text : List Char) :
    Option (List Char × Option (List Char)) :=
  if !starts_with_you_action text then none
  else
    let trimmed := trimL text
    match trimmed.findIdx? (fun c => c = '"') with
    | some idx =>
      let before := trimmed.take idx
      let after := trimmed.drop idx
      let narration := trimL before
      if narration.isEmpty then none
      else
        let dialogue := trimL after
        some (narration, if dialogue.isEmpty then none else some dialogue)
    | none => some (split_first_sentence trimmed)

/-- `ParsedEntry` from app.rs. -/
structure ParsedEntry where
  speaker : List Char
  text : List Char
deriving DecidableEq, Repr

/-- `ParsedReply` from app.rs. -/
structure ParsedReply where
  entries : List ParsedEntry
  last_speaker : Option (List Char)
deriving DecidableEq, Repr

/-- Auxiliary recursion for `push_or_merge_entry`: merge into the last entry
when its speaker matches case-insensitively, else append. -/
def mergeLast (speaker trimmed : List Char) : List ParsedEntry → List ParsedEntry
  | [] => [⟨speaker, trimmed⟩]
  | [last] =>
    if eqIC last.speaker speaker then [⟨last.speaker, last.text ++ '\n' :: trimmed⟩]
    else [last, ⟨speaker, trimmed⟩]
  | e :: e2 :: rest => e :: mergeLast speaker trimmed (e2 :: rest)

/-- `push_or_merge_entry` from app.rs. -/
def push_or_merge_entry (entries : List ParsedEntry) (speaker text : List Char) :
    List ParsedEntry :=
  let trimmed := trimEndL text
  if trimmed.isEmpty then entries
  else mergeLast speaker trimmed entries

/-- The mutable state of the `parse_speaker_lines` loop. -/
structure PState where
  entries : List ParsedEntry
  currentSpeaker : Option (List Char)
  currentText : List Char
  lastSpeaker : Option (List Char)
deriving DecidableEq, Repr

/-- One iteration of the line loop of `parse_speaker_lines` (app.rs). -/
def processLine (st : PState) (line : List Char) : PState :=
  match parse_speaker_label line with
  | some (speaker, rest) =>
    if is_disallowed_speaker speaker then st
    else
      let entries1 :=
        match st.currentSpeaker with
        | some prev => push_or_merge_entry st.entries prev (trimEndL st.currentText)
        | none => st.entries
      if !is_narrator_label speaker then
        match split_misattributed_narration rest with
        | some (narration, dialogue) =>
          let entries2 :=
            if !narration.isEmpty then
              push_or_merge_entry entries1 "Narrator".data narration
            else entries1
          let last2 :=
            if !narration.isEmpty then some "Narrator".data else st.lastSpeaker
          match dialogue with
          | some d =>
            ⟨entries2, some speaker, d, some speaker⟩
          | none =>
            ⟨entries2, none, [], last2⟩
        | none =>
          ⟨entries1, some speaker, rest, some speaker⟩
      else
        ⟨entries1, some speaker, rest, some speaker⟩
  | none =>
    let cs := if st.currentSpeaker.isNone then some "Narrator".data else st.currentSpeaker
    let ls := if st.currentSpeaker.isNone then some "Narrator".data else st.lastSpeaker
    let ct := if st.currentText.isEmpty then line else st.currentText ++ '\n' :: line
    ⟨st.entries, cs, ct, ls⟩

/-- Final flush of the open block at the end of `parse_speaker_lines`. -/
def finishParse (st : PState) : ParsedReply :=
  let entries :=
    match st.currentSpeaker with
    | some prev => push_or_merge_entry st.entries prev (trimEndL st.currentText)
    | none => st.entries
  ⟨entries, st.lastSpeaker⟩

/-- `parse_speaker_lines` (app.rs) over an explicit list of lines. -/
def parseLines (lines : List (List Char)) : ParsedReply :=
  finishParse (lines.foldl processLine ⟨[], none, [], none⟩)

/-- `parse_speaker_lines` from app.rs. -/
def parse_speaker_lines (text : List Char) : ParsedReply :=
  parseLines (rustLines text)

/-- The per-line keep test of `strip_disallowed_speaker_lines` (app.rs):
a line is kept unless it parses to a disallowed speaker label. -/
def keepLine (line : List Char) : Bool :=
  match parse_speaker_label line with
  | some (label, _) => !is_disallowed_speaker label
  | none => true

/-- `strip_disallowed_speaker_lines` from app.rs. -/
def strip_disallowed_speaker_lines (text : List Char) : List Char :=
  List.intercalate ['\n'] ((rustLines text).filter keepLine)

/-- `is_dialogue_exit` from app.rs. -/
def is_dialogue_exit (text : List Char) : Bool :=
  let lower := lowerL text
  let trimmed := trimL lower
  if "leave ".data.isPrefixOf trimmed || "leaving ".data.isPrefixOf trimmed ||
      "walk away".data.isPrefixOf trimmed || "walk out".data.isPrefixOf trimmed ||
      "run out".data.isPrefixOf trimmed || "head out".data.isPrefixOf trimmed ||
      "step out".data.isPrefixOf trimmed || "exit".data.isPrefixOf trimmed ||
      "go out".data.isPrefixOf trimmed || "go outside".data.isPrefixOf trimmed then
    true
  else
    let phrases : List (List Char) :=
      ["leave the store".data, "leave the shop".data, "leave the bodega".data,
       "leave this place".data, "leave without".data, "walked out".data,
       "run out".data, "ran out".data, "sprint out".data, "head out".data,
       "step outside".data, "out of the store".data, "out of the shop".data,
       "out of the bodega".data,
       "i".data ++ apos :: "m out".data, "i am out".data,
       "i".data ++ apos :: "m gone".data, "i am gone".data,
       "far gone".data, "outside now".data, "outside the store".data,
       "outside the shop".data, "outside the bodega".data]
    phrases.any (fun phrase => containsSub phrase lower)

/-! ## JSON model (serde_json::Value) -/

/-- Model of `serde_json::Value`.  Numbers are irrelevant to the verified
claims and are modelled as integers. -/
inductive Json where
  | null : Json
  | bool : Bool → Json
  | num : Int → Json
  | str : List Char → Json
  | arr : List Json → Json
  | obj : List (List Char × Json) → Json

/-- `Value::get(key)` on an object (first binding wins, as in a map). -/
def jGet (v : Json) (key : List Char) : Option Json :=
  match v with
  | Json.obj kvs => (kvs.find? (fun kv => kv.1 = key)).map (·.2)
  | _ => none

/-- `value.get(key).and_then(|v| v.as_str())`. -/
def jGetStr (v : Json) (key : List Char) : Option (List Char) :=
  match jGet v key with
  | some (Json.str s) => some s
  | _ => none

/-- `value.get(key).and_then(|v| v.as_array())`. -/
def jGetArr (v : Json) (key : List Char) : Option (List Json) :=
  match jGet v key with
  | some (Json.arr l) => some l
  | _ => none

/-! ## config.rs / app.rs: conversation store and session state -/

/-- `MAX_HISTORY_ITEMS` from config.rs. -/
def MAX_HISTORY_ITEMS : Nat := 60

/-- `App::history_item_count` from app.rs. -/
def history_item_count (h : List (List Json)) : Nat :=
  (h.map List.length).sum

/-- `App::trim_history` from app.rs: repeatedly remove the oldest chunk
while the total item count exceeds the maximum, stopping on empty. -/
def trim_history : List (List Json) → List (List Json)
  | [] => []
  | c :: rest =>
    if history_item_count (c :: rest) > MAX_HISTORY_ITEMS then trim_history rest
    else c :: rest

/-- `App::push_history_chunk` from app.rs, acting on the history field. -/
def push_history_chunk (h : List (List Json)) (items : List Json) :
    List (List Json) :=
  if items.isEmpty then h
  else trim_history (h ++ [items])

/-- A whole sequence of `push_history_chunk` calls starting from the empty
store of a fresh `App`. -/
def pushAll (cs : List (List Json)) : List (List Json) :=
  cs.foldl push_history_chunk []

/-- `LogKind` from app.rs. -/
inductive LogKind where
  | User : LogKind
  | Assistant : LogKind
  | System : LogKind
  | Error : LogKind
deriving DecidableEq, Repr

/-- `LogEntry` from app.rs. -/
structure LogEntry where
  kind : LogKind
  speaker : Option (List Char)
  text : List Char
deriving DecidableEq, Repr

/-- `GameState` from app.rs. -/
structure GameState where
  turn : Nat
  location : List Char
  inventory : List (List Char)
  flags : List (List Char)
  active_speaker : Option (List Char)
deriving DecidableEq, Repr

/-- `GameState::new` from app.rs. -/
def GameState.new : GameState :=
  ⟨0, "Unknown".data, [], [], none⟩

/-- The session-relevant fields of `App` from app.rs (the UI fields —
input buffer, scroll offset, channels, status strings — do not affect
the verified claims and are omitted). -/
structure App where
  log : List LogEntry
  history : List (List Json)
  state : GameState

/-- `App::push_assistant_reply` from app.rs. -/
def push_assistant_reply (app : App) (reply : List Char) : App :=
  let reply := trimL reply
  if reply.isEmpty then app
  else
    let parsed := parse_speaker_lines reply
    if parsed.entries.isEmpty then
      let sanitized := strip_disallowed_speaker_lines reply
      if !(trimL sanitized).isEmpty then
        { app with
          log := app.log ++ [⟨LogKind.Assistant, some "Narrator".data, trimL sanitized⟩],
          state := { app.state with active_speaker := none } }
      else app
    else
      let app :=
        { app with
          log := app.log ++
            parsed.entries.map (fun e => ⟨LogKind.Assistant, some e.speaker, e.text⟩) }
      match parsed.last_speaker with
      | some last_speaker =>
        if is_narrator_label last_speaker then
          { app with state := { app.state with active_speaker := none } }
        else
          { app with state := { app.state with active_speaker := some last_speaker } }
      | none => app

/-- The `json!({"role": "user", "content": content})` item built by
`App::push_user_message`. -/
def userItem (content : List Char) : Json :=
  Json.obj [("role".data, Json.str "user".data), ("content".data, Json.str content)]

/-- `App::push_user_message` from app.rs: clear the active speaker on an
exit cue, then append the user item as a one-item history chunk. -/
def push_user_message (app : App) (content : List Char) : App :=
  let item := userItem content
  let state :=
    if app.state.active_speaker.isSome then
      match jGetStr item "content".data with
      | some text =>
        if is_dialogue_exit text then { app.state with active_speaker := none }
        else app.state
      | none => app.state
    else app.state
  { app with state := state, history := push_history_chunk app.history [item] }

/-! ## api.rs: turn orchestration -/

/-- `MODEL` from config.rs. -/
def MODEL : List Char := "gpt-5-mini".data

/-- `SYSTEM_PROMPT` from config.rs (a raw string ending in a newline). -/
def SYSTEM_PROMPT : List Char :=
  "You are a text adventure game narrator.\n".data ++
  "Write in second person, present tense.\n".data ++
  "Always prefix each line with a speaker label, e.g. \"Narrator:\" or \"Clerk:\".\n".data ++
  "Only the narrator or in-world characters may speak. Never output lines for the player (no \"You:\", \"Player:\", or \"User:\").\n".data ++
  "Use one speaker label per block; do not repeat the same label for consecutive lines.\n".data ++
  "Use the \"Current speaker\" field below: if it is not \"Narrator\", the player is addressing that character.\n".data ++
  "If the player directly addresses a named character, respond as that character until the dialogue ends.\n".data ++
  "If the player leaves, moves away, or ends the interaction, switch back to \"Narrator:\" and do not continue the character's dialogue.\n".data ++
  "If the player addresses \"him/her/them\" or speaks to someone in the scene, pick the most likely character and respond as them.\n".data ++
  "During dialogue, the Narrator should stay silent unless ending the dialogue; use \"Narrator:\" to resume narration.\n".data ++
  "Narrator describes actions and scene changes; characters only speak dialogue. If both are needed, use two lines: Narrator first, then the character.\n".data ++
  "When a character speaks, use quotation marks around their words.\n".data ++
  "Keep character names consistent when labeling lines.\n".data ++
  "Keep responses concise: 1-2 short paragraphs, then ask what the player does next.\n".data ++
  "Do not use markdown code fences or JSON in your response.\n".data ++
  "Avoid meta commentary about being an AI.\n".data

/-- `build_request_body` from api.rs. -/
def build_request_body (input : List Json) : Json :=
  Json.obj
    [("model".data, Json.str MODEL),
     ("input".data, Json.arr input),
     ("max_output_tokens".data, Json.num 500),
     ("text".data, Json.obj [("format".data, Json.obj [("type".data, Json.str "text".data)])]),
     ("reasoning".data, Json.obj [("effort".data, Json.str "low".data)]),
     ("include".data, Json.arr [Json.str "reasoning.encrypted_content".data])]

/-- The system message of `advance_turn` (api.rs): static prompt plus the
rendered `GameState` snapshot. -/
def system_with_state (state : GameState) : List Char :=
  SYSTEM_PROMPT ++
  "\nCurrent turn: ".data ++ (Nat.repr state.turn).data ++
  "\nLocation: ".data ++ state.location ++
  "\nInventory: ".data ++
  (if state.inventory.isEmpty then "Empty".data
   else List.intercalate ", ".data state.inventory) ++
  "\nFlags: ".data ++
  (if state.flags.isEmpty then "None".data
   else List.intercalate ", ".data state.flags) ++
  "\nCurrent speaker: ".data ++ state.active_speaker.getD "Narrator".data

/-- The flattened outbound item list of `advance_turn` (api.rs): the system
item first, then every history chunk's items in order. -/
def inputItems (history : List (List Json)) (state : GameState) : List Json :=
  Json.obj [("role".data, Json.str "system".data),
            ("content".data, Json.str (system_with_state state))] ::
  history.flatten

/-- The corrective instruction item appended for the retry attempt (api.rs). -/
def correctiveItem : Json :=
  Json.obj [("role".data, Json.str "user".data),
            ("content".data, Json.str "Please respond with visible text only.".data)]

/-- One iteration of the output-item loop of `extract_output_text_and_items`
(api.rs), accumulating (texts, items, debug lines, refusals). -/
def extractStep (acc : List (List Char) × List Json × List (List Char) × List (List Char))
    (item : Json) : List (List Char) × List Json × List (List Char) × List (List Char) :=
  let (texts, items, debug_lines, refusals) := acc
  let item_type := (jGetStr item "type".data).getD "unknown".data
  let item_role := (jGetStr item "role".data).getD "-".data
  let content := (jGetArr item "content".data).getD []
  let content_types := content.filterMap (fun part => jGetStr part "type".data)
  let refusals := refusals ++ content.filterMap (fun part =>
    if jGetStr part "type".data = some "refusal".data then
      jGetStr part "refusal".data
    else none)
  let debug_line :=
    if content_types.isEmpty then
      "output: type=".data ++ item_type ++ " role=".data ++ item_role ++
        " content=[]".data
    else
      "output: type=".data ++ item_type ++ " role=".data ++ item_role ++
        " content=".data ++ List.intercalate ",".data content_types
  let items := items ++ [item]
  let texts :=
    if jGetStr item "type".data = some "message".data ∧
        jGetStr item "role".data = some "assistant".data then
      texts ++ content.filterMap (fun part =>
        if jGetStr part "type".data = some "output_text".data then
          jGetStr part "text".data
        else none)
    else texts
  (texts, items, debug_lines ++ [debug_line], refusals)

/-- `extract_output_text_and_items` from api.rs.
Returns (optional narrative text, raw output items, diagnostic summary). -/
def extract_output_text_and_items (value : Json) :
    Option (List Char) × List Json × List Char :=
  match jGetArr value "output".data with
  | none =>
    let fallback := jGetStr value "output_text".data
    (fallback, [], "output: <missing>".data)
  | some output =>
    let fallback_text := jGetStr value "output_text".data
    let debug0 : List (List Char) :=
      match fallback_text with
      | some t => ["output_text:len=".data ++ (Nat.repr t.length).data]
      | none => []
    let (texts, items, debug_lines, refusals) := output.foldl extractStep ([], [], debug0, [])
    if texts.isEmpty then
      if !refusals.isEmpty then
        (some ("Refusal: ".data ++ List.intercalate ['\n'] refusals), items,
         List.intercalate " | ".data debug_lines)
      else if fallback_text.isSome then
        (fallback_text, items, List.intercalate " | ".data debug_lines)
      else
        (none, items, List.intercalate " | ".data debug_lines)
    else
      (some texts.flatten, items, List.intercalate " | ".data debug_lines)

/-- One HTTP response of the Completion Service, as observed by
`advance_turn`: status success flag, status text, body text (read on
failure), and the parsed JSON body (`none` models a body that fails to
parse as JSON). -/
structure HttpResp where
  success : Bool
  status : List Char
  bodyText : List Char
  bodyJson : Option Json

/-- Outcome of one `client.post(..).send()` call: either the send itself
fails (connection failure / timeout), or a response arrives. -/
inductive SendOutcome where
  | sendFail : List Char → SendOutcome
  | resp : HttpResp → SendOutcome

/-- The error message built for a non-success status (api.rs). -/
def transportErrMsg (r : HttpResp) : List Char :=
  "OpenAI API error (".data ++ r.status ++ "): ".data ++ r.bodyText

/-- The terminal error message of `advance_turn` when both attempts yield
no text (api.rs): the diagnostic summary is included exactly in debug mode. -/
def noTextMsg (debug : Bool) (last_debug : List Char) : List Char :=
  if debug then
    "No output text found in response. Output summary: ".data ++ last_debug
  else
    "No output text found in response.".data

/-- One attempt of the `for attempt in 0..2` loop of `advance_turn`:
`error e` aborts the call, `done r` returns successfully, `noText d`
falls through to the next attempt carrying the diagnostic summary. -/
inductive AttemptResult where
  | error : List Char → AttemptResult
  | done : List Char × List Json × List Char → AttemptResult
  | noText : List Char → AttemptResult

/-- The body of one loop iteration of `advance_turn` (api.rs): send, abort
on transport failure or non-success status, parse JSON, extract text. -/
def attemptStep (outcome : SendOutcome) : AttemptResult :=
  match outcome with
  | SendOutcome.sendFail e => AttemptResult.error e
  | SendOutcome.resp r =>
    if !r.success then AttemptResult.error (transportErrMsg r)
    else
      match r.bodyJson with
      | none => AttemptResult.error "response body is not valid JSON".data
      | some value =>
        let (text_opt, output_items, debug_summary) :=
          extract_output_text_and_items value
        match text_opt with
        | some text => AttemptResult.done (text, output_items, debug_summary)
        | none => AttemptResult.noText debug_summary

/-- `advance_turn` from api.rs.  The network is abstracted as `oracle`,
giving the outcome of the send of attempt 0 and attempt 1; the second
component of the result records the request bodies actually sent, in
order, so that the retry policy is observable. -/
def advance_turn (oracle : Nat → SendOutcome) (history : List (List Json))
    (state : GameState) (debug : Bool) :
    Except (List Char) (List Char × List Json × List Char) × List Json :=
  let input_items := inputItems history state
  let retry_items := input_items ++ [correctiveItem]
  let body := build_request_body input_items
  let retry_body := build_request_body retry_items
  match attemptStep (oracle 0) with
  | AttemptResult.error e => (Except.error e, [body])
  | AttemptResult.done v => (Except.ok v, [body])
  | AttemptResult.noText _ =>
    match attemptStep (oracle 1) with
    | AttemptResult.error e => (Except.error e, [body, retry_body])
    | AttemptResult.done v => (Except.ok v, [body, retry_body])
    | AttemptResult.noText last_debug =>
      (Except.error (noTextMsg debug last_debug), [body, retry_body])

/-! ## Spec-side definitions

`spec_narrative_text` renders §4.2's narrative-text extraction rule in the
spec's own terms, to be compared with `extract_output_text_and_items`.
`serializeBlocks` renders the spec's `Speaker: text` serialization used by
the parser round-trip property (§8); the source has no serializer. -/

/-- The ordered output items of a response (empty when the `output` array
is missing), as the spec describes them. -/
def outputItemsOf (value : Json) : List Json :=
  (jGetArr value "output".data).getD []

/-- The ordered content parts of an output item, as the spec describes them. -/
def contentPartsOf (item : Json) : List Json :=
  (jGetArr item "content".data).getD []

/-- Whether an output item is a `message` with role `assistant`. -/
def isAssistantMessage (item : Json) : Prop :=
  jGetStr item "type".data = some "message".data ∧
  jGetStr item "role".data = some "assistant".data

instance (item : Json) : Decidable (isAssistantMessage item) := by
  unfold isAssistantMessage
  infer_instance

/-- The `output_text` texts of one output item, as the spec describes them:
present only for a `message`/`assistant` item, in encounter order. -/
def itemMsgTexts (item : Json) : List (List Char) :=
  if isAssistantMessage item then
    (contentPartsOf item).filterMap (fun part =>
      if jGetStr part "type".data = some "output_text".data then
        jGetStr part "text".data
      else none)
  else []

/-- The refusal texts of one output item, as the spec describes them:
collected from every item regardless of type or role. -/
def itemRefusals (item : Json) : List (List Char) :=
  (contentPartsOf item).filterMap (fun part =>
    if jGetStr part "type".data = some "refusal".data then
      jGetStr part "refusal".data
    else none)

/-- Modelled from the spec (§4.2): narrative-text extraction.  Concatenate
the texts of `output_text` content parts of assistant messages in encounter
order; else synthesize a `Refusal: ` text from the refusal parts seen
anywhere; else the top-level `output_text` field; else no text. -/
def spec_narrative_text (value : Json) : Option (List Char) :=
  let msgTexts := (outputItemsOf value).flatMap itemMsgTexts
  if !msgTexts.isEmpty then some msgTexts.flatten
  else
    let refusalTexts := (outputItemsOf value).flatMap itemRefusals
    if !refusalTexts.isEmpty then
      some ("Refusal: ".data ++ List.intercalate ['\n'] refusalTexts)
    else jGetStr value "output_text".data

/-- Modelled from the spec (§8): serialize one block as `Speaker: text`. -/
def serializeBlock (b : ParsedEntry) : List Char :=
  b.speaker ++ ": ".data ++ b.text

/-- Modelled from the spec (§8): serialize a block sequence, one block per
line group, joined by newlines. -/
def serializeBlocks (bs : List ParsedEntry) : List Char :=
  List.intercalate ['\n'] (bs.map serializeBlock)

/-- A well-formed block: its speaker is a valid, trimmed, self-normalizing,
allowed label, and its text is nonempty, trimmed, has no empty line,
introduces no new label line, no line of it ends in a carriage return, and
(for a non-Narrator speaker) its first line does not trigger the
misattribution repair. -/
def wfBlock (b : ParsedEntry) : Bool :=
  decide (trimL b.speaker = b.speaker) &&
  !b.speaker.isEmpty &&
  decide (b.speaker.length ≤ 40) &&
  b.speaker.any Char.isAlpha &&
  b.speaker.all labelChar &&
  (!is_narrator_label b.speaker || decide (b.speaker = "Narrator".data)) &&
  !is_disallowed_speaker b.speaker &&
  !b.text.isEmpty &&
  decide (trimStartL b.text = b.text) &&
  decide (trimEndL b.text = b.text) &&
  (splitNl b.text).all (fun l => !l.isEmpty) &&
  (splitNl b.text).all (fun l => decide (stripCr l = l)) &&
  ((splitNl b.text).tail).all (fun l => (parse_speaker_label l).isNone) &&
  (is_narrator_label b.speaker ||
    !starts_with_you_action ((splitNl b.text).headD []))

/-- No two adjacent blocks share a speaker (case-insensitively). -/
def distinctAdj : List ParsedEntry → Bool
  | [] => true
  | [_] => true
  | a :: b :: t => !eqIC a.speaker b.speaker && distinctAdj (b :: t)

/-! ## Theorems: conversation store (C1, C10) -/

lemma history_item_count_append (a b : List (List Json)) :
    history_item_count (a ++ b) = history_item_count a + history_item_count b := by
  simp [history_item_count]

lemma trim_history_le (h : List (List Json)) :
    history_item_count (trim_history h) ≤ MAX_HISTORY_ITEMS := by
  induction h with
  | nil => simp [trim_history, history_item_count, MAX_HISTORY_ITEMS]
  | cons c rest ih =>
    rw [trim_history]
    split
    · exact ih
    · omega

lemma trim_history_suffix (h : List (List Json)) :
    (trim_history h).IsSuffix h := by
  induction h with
  | nil => simp [trim_history]
  | cons c rest ih =>
    rw [trim_history]
    split
    · exact ih.trans (List.suffix_cons c rest)
    · exact List.suffix_refl _

lemma pushAll_append_singleton (L : List (List Json)) (c : List Json) :
    pushAll (L ++ [c]) = push_history_chunk (pushAll L) c := by
  simp [pushAll]

lemma pushAll_bound_suffix (L : List (List Json)) :
    history_item_count (pushAll L) ≤ MAX_HISTORY_ITEMS ∧
    (pushAll L).IsSuffix (L.filter (fun c => !c.isEmpty)) := by
  induction L using List.reverseRecOn with
  | nil =>
    constructor
    · simp [pushAll, history_item_count, MAX_HISTORY_ITEMS]
    · simp [pushAll]
  | append_singleton L c ih =>
    rw [pushAll_append_singleton]
    rcases ih with ⟨hle, hsuf⟩
    by_cases hc : c.isEmpty
    · have hc' : c = [] := List.isEmpty_iff.mp hc
      subst hc'
      constructor
      · simpa [push_history_chunk] using hle
      · simpa [push_history_chunk] using hsuf
    · have hpush : push_history_chunk (pushAll L) c = trim_history (pushAll L ++ [c]) := by
        simp [push_history_chunk, hc]
      rw [hpush]
      constructor
      · exact trim_history_le _
      · have h1 : (trim_history (pushAll L ++ [c])).IsSuffix (pushAll L ++ [c]) :=
          trim_history_suffix _
        have h2 : (pushAll L ++ [c]).IsSuffix (L.filter (fun x => !x.isEmpty) ++ [c]) := by
          rcases hsuf with ⟨p, hp⟩
          exact ⟨p, by rw [← List.append_assoc, hp]⟩
        have h3 : L.filter (fun x => !x.isEmpty) ++ [c] =
            (L ++ [c]).filter (fun x => !x.isEmpty) := by
          simp [List.filter_append, hc]
        exact h1.trans (h3 ▸ h2)

/-- C1: for every sequence of `push_history_chunk` calls starting from the
empty store, after each call (i.e. after every prefix of the sequence) the
total item count is at most `MAX_HISTORY_ITEMS`, and the surviving store is
a suffix of the sequence of (nonempty) chunks pushed so far — so eviction
only ever removes whole chunks, oldest first, and never reorders the
survivors. -/
theorem history_bound_invariant (cs : List (List Json)) (i : Nat) :
    history_item_count (pushAll (cs.take i)) ≤ MAX_HISTORY_ITEMS ∧
    (pushAll (cs.take i)).IsSuffix ((cs.take i).filter (fun c => !c.isEmpty)) :=
  pushAll_bound_suffix (cs.take i)

lemma trim_history_oversized_last (h : List (List Json)) (c : List Json)
    (hc : MAX_HISTORY_ITEMS < c.length) :
    trim_history (h ++ [c]) = [] := by
  induction h with
  | nil =>
    rw [List.nil_append, trim_history]
    have : history_item_count [c] = c.length := by simp [history_item_count]
    rw [if_pos (by omega)]
    simp [trim_history]
  | cons x rest ih =>
    rw [List.cons_append, trim_history]
    have hcount : history_item_count (x :: (rest ++ [c])) =
        x.length + (history_item_count rest + c.length) := by
      simp [history_item_count]
    rw [if_pos (by omega)]
    exact ih

/-- C10: pushing a single chunk of more than `MAX_HISTORY_ITEMS` items onto
any store empties the store completely — the freshly appended chunk itself is
evicted along with every older chunk.  The embedded operation is total, so
the call cannot fail. -/
theorem push_oversized_chunk_empties (h : List (List Json)) (c : List Json)
    (hc : MAX_HISTORY_ITEMS < c.length) :
    push_history_chunk h c = [] := by
  have hne : c.isEmpty = false := by
    cases c with
    | nil => simp [MAX_HISTORY_ITEMS] at hc
    | cons a t => simp
  rw [push_history_chunk, hne]
  simp only [Bool.false_eq_true, if_false]
  exact trim_history_oversized_last h c hc

/-- Witness for C10 at a concrete input: a store holding one 1-item chunk,
pushed a 61-item chunk, becomes empty. -/
theorem push_oversized_chunk_empties_witness :
    MAX_HISTORY_ITEMS < (List.replicate 61 Json.null).length ∧
    push_history_chunk [[Json.null]] (List.replicate 61 Json.null) = [] :=
  ⟨by simp [MAX_HISTORY_ITEMS], push_oversized_chunk_empties _ _ (by simp [MAX_HISTORY_ITEMS])⟩

/-! ## Theorems: disallowed speakers never attributed (C4) -/

lemma narrator_not_disallowed : is_disallowed_speaker "Narrator".data = false := by decide

lemma mergeLast_speakers (sp t : List Char) :
    ∀ (E : List ParsedEntry) (e : ParsedEntry), e ∈ mergeLast sp t E →
      e.speaker = sp ∨ ∃ e0 ∈ E, e.speaker = e0.speaker := by
  intro E
  induction E with
  | nil =>
    intro e he
    simp [mergeLast] at he
    subst he
    exact Or.inl rfl
  | cons a tail ih =>
    intro e he
    cases tail with
    | nil =>
      rw [mergeLast] at he
      split at he
      · simp at he
        subst he
        exact Or.inr ⟨a, by simp, rfl⟩
      · rcases List.mem_pair.mp he with h | h
        · exact Or.inr ⟨a, by simp, by rw [h]⟩
        · subst h
          exact Or.inl rfl
    | cons b tail2 =>
      rw [mergeLast] at he
      rcases List.mem_cons.mp he with h | h
      · exact Or.inr ⟨a, by simp, by rw [h]⟩
      · rcases ih e h with h1 | ⟨e0, he0, hsp⟩
        · exact Or.inl h1
        · exact Or.inr ⟨e0, List.mem_cons_of_mem a he0, hsp⟩

lemma push_or_merge_speakers (E : List ParsedEntry) (sp t : List Char)
    (hE : ∀ e ∈ E, is_disallowed_speaker e.speaker = false)
    (hsp : is_disallowed_speaker sp = false) :
    ∀ e ∈ push_or_merge_entry E sp t, is_disallowed_speaker e.speaker = false := by
  intro e he
  rw [push_or_merge_entry] at he
  split at he
  · exact hE e he
  · rcases mergeLast_speakers sp (trimEndL t) E e he with h | ⟨e0, he0, hsp0⟩
    · rw [h]; exact hsp
    · rw [hsp0]; exact hE e0 he0

/-- The invariant of C4 on the parser loop state: every flushed entry and
the open block's speaker are allowed. -/
def speakersOK (st : PState) : Prop :=
  (∀ e ∈ st.entries, is_disallowed_speaker e.speaker = false) ∧
  (∀ s, st.currentSpeaker = some s → is_disallowed_speaker s = false)

lemma processLine_speakersOK (st : PState) (line : List Char)
    (h : speakersOK st) : speakersOK (processLine st line) := by
  rcases h with ⟨hE, hcs⟩
  rw [processLine]
  cases hpl : parse_speaker_label line with
  | none =>
    refine ⟨hE, ?_⟩
    intro s hs
    simp only at hs
    by_cases hnone : st.currentSpeaker.isNone
    · simp [hnone] at hs
      rw [← hs]
      exact narrator_not_disallowed
    · simp [hnone] at hs
      exact hcs s hs
  | some p =>
    obtain ⟨speaker, rest⟩ := p
    simp only
    split
    · exact ⟨hE, hcs⟩
    · rename_i hdis
      have hdis' : is_disallowed_speaker speaker = false := by
        revert hdis
        cases is_disallowed_speaker speaker <;> simp
      have hE1 : ∀ e ∈
          (match st.currentSpeaker with
           | some prev => push_or_merge_entry st.entries prev (trimEndL st.currentText)
           | none => st.entries),
          is_disallowed_speaker e.speaker = false := by
        cases hc : st.currentSpeaker with
        | none => simpa using hE
        | some prev =>
          simpa using push_or_merge_speakers st.entries prev (trimEndL st.currentText)
            hE (hcs prev hc)
      split
      · split
        · rename_i narration dialogue hsplit
          have hE2 : ∀ e ∈
              (if !narration.isEmpty then
                push_or_merge_entry
                  (match st.currentSpeaker with
                   | some prev => push_or_merge_entry st.entries prev (trimEndL st.currentText)
                   | none => st.entries) "Narrator".data narration
               else
                (match st.currentSpeaker with
                 | some prev => push_or_merge_entry st.entries prev (trimEndL st.currentText)
                 | none => st.entries)),
              is_disallowed_speaker e.speaker = false := by
            split
            · exact push_or_merge_speakers _ _ _ hE1 narrator_not_disallowed
            · exact hE1
          cases dialogue with
          | some d =>
            refine ⟨hE2, ?_⟩
            intro s hs
            simp at hs
            rw [← hs]
            exact hdis'
          | none =>
            refine ⟨hE2, ?_⟩
            intro s hs
            simp at hs
        · refine ⟨hE1, ?_⟩
          intro s hs
          simp at hs
          rw [← hs]
          exact hdis'
      · refine ⟨hE1, ?_⟩
        intro s hs
        simp at hs
        rw [← hs]
        exact hdis'

lemma foldl_processLine_speakersOK (lines : List (List Char)) (st : PState)
    (h : speakersOK st) : speakersOK (lines.foldl processLine st) := by
  induction lines generalizing st with
  | nil => exact h
  | cons l rest ih => exact ih _ (processLine_speakersOK st l h)

lemma parseLines_speakers (lines : List (List Char)) :
    ∀ e ∈ (parseLines lines).entries, is_disallowed_speaker e.speaker = false := by
  have h := foldl_processLine_speakersOK lines ⟨[], none, [], none⟩
    ⟨by simp, by simp⟩
  rcases h with ⟨hE, hcs⟩
  intro e he
  rw [parseLines, finishParse] at he
  simp only at he
  revert he
  cases hc : (lines.foldl processLine ⟨[], none, [], none⟩).currentSpeaker with
  | none =>
    intro he
    exact hE e he
  | some prev =>
    intro he
    exact push_or_merge_speakers _ _ _ hE (hcs prev hc) e he

lemma processLine_dropped (st : PState) (line : List Char)
    (h : keepLine line = false) : processLine st line = st := by
  rw [keepLine] at h
  rw [processLine]
  cases hpl : parse_speaker_label line with
  | none => rw [hpl] at h; simp at h
  | some p =>
    obtain ⟨lab, rest⟩ := p
    rw [hpl] at h
    simp only [Bool.not_eq_false'] at h
    simp [h]

lemma foldl_processLine_filter (lines : List (List Char)) (st : PState) :
    lines.foldl processLine st = (lines.filter keepLine).foldl processLine st := by
  induction lines generalizing st with
  | nil => rfl
  | cons l rest ih =>
    by_cases hk : keepLine l
    · simp [List.filter_cons, hk, List.foldl_cons, ih]
    · have hk' : keepLine l = false := by simpa using hk
      simp [List.filter_cons, hk', List.foldl_cons, processLine_dropped st l hk', ih]

/-- C4: no parser output block is attributed to a disallowed speaker
(`You`/`Player`/`User`, any case); every line kept by the fallback
sanitizer carries no disallowed label; and a line carrying a disallowed
label is dropped entirely — parsing is unchanged when such lines are
removed from the input, so they are neither attributed nor merged into the
open block. -/
theorem disallowed_speaker_exclusion (text : List Char) :
    (∀ e ∈ (parse_speaker_lines text).entries,
        is_disallowed_speaker e.speaker = false) ∧
    (∀ line ∈ (rustLines text).filter keepLine, ∀ lab rest,
        parse_speaker_label line = some (lab, rest) →
        is_disallowed_speaker lab = false) ∧
    parse_speaker_lines text = parseLines ((rustLines text).filter keepLine) := by
  refine ⟨parseLines_speakers _, ?_, ?_⟩
  · intro line hline lab rest hparse
    have hk : keepLine line = true := (List.mem_filter.mp hline).2
    rw [keepLine, hparse] at hk
    simpa using hk
  · rw [parse_speaker_lines, parseLines, parseLines,
        foldl_processLine_filter (rustLines text)]

/-- Witness for C4: in a reply whose first line impersonates the player,
the surviving parsed block is the allowed speaker. -/
theorem disallowed_speaker_exclusion_witness :
    is_disallowed_speaker (⟨"Clerk".data, "hi".data⟩ : ParsedEntry).speaker = false :=
  (disallowed_speaker_exclusion "You: cheat\nClerk: hi".data).1
    ⟨"Clerk".data, "hi".data⟩ (by decide)

/-! ## Theorems: misattribution split example (C6) -/

/-- C6: the single line `Clerk: You pick up the can. "Nice find," he says.`
parses to exactly two blocks, the pre-quote narration reattributed to
Narrator and the quoted remainder kept as the Clerk's block. -/
theorem misattribution_split_example :
    (parse_speaker_lines
        "Clerk: You pick up the can. \"Nice find,\" he says.".data).entries =
      [⟨"Narrator".data, "You pick up the can.".data⟩,
       ⟨"Clerk".data, "\"Nice find,\" he says.".data⟩] := by
  decide

/-! ## Theorems: active-speaker exit cue (C8) -/

lemma userItem_content (content : List Char) :
    jGetStr (userItem content) "content".data = some content := by
  rfl

/-- C8: when a dialogue is active and the player input matches an exit cue
(e.g. contains "i'm gone"), `push_user_message` clears the active speaker,
and the resulting session state — from which the next turn request is
built — holds the user item appended as a new history chunk with the
speaker already cleared. -/
theorem active_speaker_exit (app : App) (content : List Char) (s : List Char)
    (hs : app.state.active_speaker = some s)
    (hx : is_dialogue_exit content = true) :
    (push_user_message app content).state.active_speaker = none ∧
    (push_user_message app content).history =
      push_history_chunk app.history [userItem content] ∧
    (push_user_message app content).log = app.log := by
  refine ⟨?_, rfl, rfl⟩
  simp [push_user_message, userItem, jGetStr, jGet, hs, hx]

/-- Witness for C8: with `active_speaker = Some("Clerk")` and the input
"ok i'm gone", the speaker is cleared and the user chunk appended. -/
theorem active_speaker_exit_witness :
    (push_user_message
        ⟨[], [], ⟨0, "Unknown".data, [], [], some "Clerk".data⟩⟩
        ("ok i".data ++ apos :: "m gone".data)).state.active_speaker = none ∧
    (push_user_message
        ⟨[], [], ⟨0, "Unknown".data, [], [], some "Clerk".data⟩⟩
        ("ok i".data ++ apos :: "m gone".data)).history =
      push_history_chunk []
        [userItem ("ok i".data ++ apos :: "m gone".data)] ∧
    (push_user_message
        ⟨[], [], ⟨0, "Unknown".data, [], [], some "Clerk".data⟩⟩
        ("ok i".data ++ apos :: "m gone".data)).log = [] :=
  active_speaker_exit ⟨[], [], ⟨0, "Unknown".data, [], [], some "Clerk".data⟩⟩
    ("ok i".data ++ apos :: "m gone".data) "Clerk".data rfl (by decide)

/-! ## Theorems: degenerate-parse fallback (C7) -/

/-- C7: when the parser yields zero blocks, `push_assistant_reply` never
fails — it strips disallowed-speaker lines from the (trimmed) reply and, if
a nonempty remainder survives trimming, appends exactly one Assistant log
entry under `Narrator` holding that remainder and resets the active speaker
to none; otherwise the session is unchanged. -/
theorem parser_degenerate_fallback (app : App) (reply : List Char)
    (h : (parse_speaker_lines (trimL reply)).entries = []) :
    push_assistant_reply app reply =
      (if (trimL (strip_disallowed_speaker_lines (trimL reply))).isEmpty then app
       else
        { app with
          log := app.log ++
            [⟨LogKind.Assistant, some "Narrator".data,
              trimL (strip_disallowed_speaker_lines (trimL reply))⟩],
          state := { app.state with active_speaker := none } }) := by
  by_cases hre : (trimL reply).isEmpty
  · have hr0 : trimL reply = [] := List.isEmpty_iff.mp hre
    unfold push_assistant_reply
    rw [hr0]
    rfl
  · have hre' : (trimL reply).isEmpty = false := by simpa using hre
    have hpe : (parse_speaker_lines (trimL reply)).entries.isEmpty = true := by
      rw [h]; rfl
    simp only [push_assistant_reply, hre', hpe, Bool.false_eq_true, if_false, if_true]
    by_cases hs : (trimL (strip_disallowed_speaker_lines (trimL reply))).isEmpty
    · simp [hs]
    · have hs' : (trimL (strip_disallowed_speaker_lines (trimL reply))).isEmpty = false := by
        simpa using hs
      simp [hs']

/-- Witness for C7: the reply `Clerk:` parses to zero blocks (an empty
block is dropped), and the fallback emits it verbatim as one Narrator
entry while resetting the active speaker. -/
theorem parser_degenerate_fallback_witness :
    push_assistant_reply
        ⟨[], [], ⟨0, "Unknown".data, [], [], some "Clerk".data⟩⟩ "Clerk:".data =
      ⟨[⟨LogKind.Assistant, some "Narrator".data, "Clerk:".data⟩], [],
       ⟨0, "Unknown".data, [], [], none⟩⟩ :=
  (parser_degenerate_fallback
      ⟨[], [], ⟨0, "Unknown".data, [], [], some "Clerk".data⟩⟩ "Clerk:".data
      (by decide)).trans (by rfl)

/-! ## Theorems: active-speaker transition (C5) -/

/-- The invariant of C5 on the parser loop state: if no speaker label has
been recorded yet, nothing has been flushed and no block is open. -/
def lastNoneInv (st : PState) : Prop :=
  st.lastSpeaker = none → st.entries = [] ∧ st.currentSpeaker = none

lemma processLine_lastNoneInv (st : PState) (line : List Char)
    (h : lastNoneInv st) : lastNoneInv (processLine st line) := by
  rw [processLine]
  cases hpl : parse_speaker_label line with
  | none =>
    intro hlast
    by_cases hcs : st.currentSpeaker.isNone
    · simp [hcs] at hlast
    · simp [hcs] at hlast
      rcases h hlast with ⟨_, hcs0⟩
      rw [hcs0] at hcs
      simp at hcs
  | some p =>
    obtain ⟨speaker, rest⟩ := p
    simp only
    split
    · exact h
    · split
      · split
        · rename_i narration dialogue hsplit
          cases dialogue with
          | some d =>
            intro hlast
            simp at hlast
          | none =>
            intro hlast
            simp only at hlast
            by_cases hn : narration.isEmpty
            · simp only [hn, Bool.not_true, Bool.false_eq_true, if_false] at hlast
              rcases h hlast with ⟨he, hcs0⟩
              refine ⟨?_, rfl⟩
              simp only [hn, Bool.not_true, Bool.false_eq_true, if_false, hcs0]
              exact he
            · have hn' : narration.isEmpty = false := by simpa using hn
              simp [hn'] at hlast
        · intro hlast
          simp at hlast
      · intro hlast
        simp at hlast

lemma foldl_processLine_lastNoneInv (lines : List (List Char)) (st : PState)
    (h : lastNoneInv st) : lastNoneInv (lines.foldl processLine st) := by
  induction lines generalizing st with
  | nil => exact h
  | cons l rest ih => exact ih _ (processLine_lastNoneInv st l h)

lemma parseLines_last_none (lines : List (List Char))
    (h : (parseLines lines).last_speaker = none) :
    (parseLines lines).entries = [] := by
  have hinv := foldl_processLine_lastNoneInv lines ⟨[], none, [], none⟩ (by intro ; exact ⟨rfl, rfl⟩)
  rw [parseLines, finishParse] at h ⊢
  simp only at h ⊢
  rcases hinv h with ⟨he, hcs⟩
  rw [hcs]
  exact he

/-- C5: after `push_assistant_reply` on a reply whose parse yields at least
one block, the active speaker is exactly the candidate trailing speaker —
none when it is the Narrator (and the absent case cannot co-occur with a
nonempty parse, matching "or absent" vacuously), otherwise that
character's label. -/
theorem active_speaker_transition (app : App) (reply : List Char)
    (h : (parse_speaker_lines (trimL reply)).entries ≠ []) :
    (push_assistant_reply app reply).state.active_speaker =
      (parse_speaker_lines (trimL reply)).last_speaker.bind
        (fun s => if is_narrator_label s then none else some s) := by
  have hre' : (trimL reply).isEmpty = false := by
    cases hr : (trimL reply) with
    | nil =>
      exfalso
      apply h
      rw [hr]
      rfl
    | cons a t => rfl
  have hpe : (parse_speaker_lines (trimL reply)).entries.isEmpty = false := by
    cases hp : (parse_speaker_lines (trimL reply)).entries with
    | nil => exact absurd hp h
    | cons a t => rfl
  simp only [push_assistant_reply, hre', hpe, Bool.false_eq_true, if_false]
  cases hls : (parse_speaker_lines (trimL reply)).last_speaker with
  | none =>
    exact absurd (parseLines_last_none _ hls) h
  | some ls =>
    by_cases hn : is_narrator_label ls
    · simp [hn]
    · simp [hn]

/-- Witness for C5: the reply `Clerk: "Hi."` ends in the Clerk's block, so
the Clerk becomes the active speaker. -/
theorem active_speaker_transition_witness :
    (push_assistant_reply ⟨[], [], GameState.new⟩
        "Clerk: \"Hi.\"".data).state.active_speaker = some "Clerk".data :=
  (active_speaker_transition ⟨[], [], GameState.new⟩ "Clerk: \"Hi.\"".data
      (by decide)).trans (by rfl)

/-! ## Theorems: narrative-text extraction refinement (C3) -/

lemma extractStep_fst (acc : List (List Char) × List Json × List (List Char) × List (List Char))
    (item : Json) : (extractStep acc item).1 = acc.1 ++ itemMsgTexts item := by
  obtain ⟨texts, items, dbg, refus⟩ := acc
  by_cases hm : isAssistantMessage item
  · have hm' := hm
    rw [isAssistantMessage] at hm'
    simp [extractStep, itemMsgTexts, contentPartsOf, hm, hm']
  · have hm' := hm
    rw [isAssistantMessage] at hm'
    simp [extractStep, itemMsgTexts, contentPartsOf, hm, hm']

lemma extractStep_refusals
    (acc : List (List Char) × List Json × List (List Char) × List (List Char))
    (item : Json) : (extractStep acc item).2.2.2 = acc.2.2.2 ++ itemRefusals item := by
  obtain ⟨texts, items, dbg, refus⟩ := acc
  by_cases hm : jGetStr item "type".data = some "message".data ∧
      jGetStr item "role".data = some "assistant".data
  · simp [extractStep, itemRefusals, contentPartsOf, hm]
  · simp [extractStep, itemRefusals, contentPartsOf, hm]

lemma extract_foldl (output : List Json) :
    ∀ acc : List (List Char) × List Json × List (List Char) × List (List Char),
      (output.foldl extractStep acc).1 = acc.1 ++ output.flatMap itemMsgTexts ∧
      (output.foldl extractStep acc).2.2.2 = acc.2.2.2 ++ output.flatMap itemRefusals := by
  induction output with
  | nil => intro acc; simp
  | cons item rest ih =>
    intro acc
    rw [List.foldl_cons, List.flatMap_cons, List.flatMap_cons]
    rcases ih (extractStep acc item) with ⟨h1, h2⟩
    rw [h1, h2, extractStep_fst, extractStep_refusals, List.append_assoc,
      List.append_assoc]
    exact ⟨rfl, rfl⟩

/-- C3: the narrative text chosen by `extract_output_text_and_items` is
exactly the spec's extraction rule — assistant-message `output_text` parts
concatenated in encounter order; else a `Refusal: ` synthesis of the
refusal texts; else the top-level `output_text` field; else none. -/
theorem extract_output_text_matches_spec (value : Json) :
    (extract_output_text_and_items value).1 = spec_narrative_text value := by
  rw [extract_output_text_and_items, spec_narrative_text]
  cases harr : jGetArr value "output".data with
  | none => simp [outputItemsOf, harr]
  | some output =>
    simp only [outputItemsOf, harr, Option.getD_some]
    cases hout : jGetStr value "output_text".data with
    | none =>
      rcases hfold : output.foldl extractStep ([], [], [], []) with
        ⟨texts, rest3⟩
      rcases rest3 with ⟨items, rest2⟩
      rcases rest2 with ⟨dbg, refus⟩
      have h1 := (extract_foldl output ([], [], [], [])).1
      have h2 := (extract_foldl output ([], [], [], [])).2
      rw [hfold] at h1 h2
      simp only at h1 h2
      rw [List.nil_append] at h1 h2
      subst h1
      subst h2
      simp only [hout, hfold]
      by_cases ht : (output.flatMap itemMsgTexts).isEmpty
      · have ht' : (output.flatMap itemMsgTexts).isEmpty = true := ht
        simp only [ht', Bool.not_true, Bool.false_eq_true, if_false, if_true]
        by_cases hr : (output.flatMap itemRefusals).isEmpty
        · simp [hr]
        · have hr' : (output.flatMap itemRefusals).isEmpty = false := by simpa using hr
          simp [hr']
      · have ht' : (output.flatMap itemMsgTexts).isEmpty = false := by simpa using ht
        simp [ht']
    | some t =>
      rcases hfold : output.foldl extractStep
          ([], [], ["output_text:len=".data ++ (Nat.repr t.length).data], []) with
        ⟨texts, rest3⟩
      rcases rest3 with ⟨items, rest2⟩
      rcases rest2 with ⟨dbg, refus⟩
      have h1 := (extract_foldl output
        ([], [], ["output_text:len=".data ++ (Nat.repr t.length).data], [])).1
      have h2 := (extract_foldl output
        ([], [], ["output_text:len=".data ++ (Nat.repr t.length).data], [])).2
      rw [hfold] at h1 h2
      simp only at h1 h2
      rw [List.nil_append] at h1 h2
      subst h1
      subst h2
      simp only [hout, hfold]
      by_cases ht : (output.flatMap itemMsgTexts).isEmpty
      · have ht' : (output.flatMap itemMsgTexts).isEmpty = true := ht
        simp only [ht', Bool.not_true, Bool.false_eq_true, if_false, if_true]
        by_cases hr : (output.flatMap itemRefusals).isEmpty
        · simp [hr]
        · have hr' : (output.flatMap itemRefusals).isEmpty = false := by simpa using hr
          simp [hr']
      · have ht' : (output.flatMap itemMsgTexts).isEmpty = false := by simpa using ht
        simp [ht']

/-! ## Theorems: turn-orchestrator retry contract (C2) -/

/-- C2: `advance_turn` issues at most two attempts.  A non-success status
aborts immediately with a transport error and no retry; only an attempt
that yields no extractable text triggers the single retry, whose request
body is the same context with exactly one appended corrective instruction
item; and when attempt 1 also yields no text the call fails with the
`No output text found in response.` error, carrying the diagnostic summary
exactly when debug mode is on. -/
theorem advance_turn_retry_contract (oracle : Nat → SendOutcome)
    (history : List (List Json)) (state : GameState) (debug : Bool) :
    ((advance_turn oracle history state debug).2 =
        [build_request_body (inputItems history state)] ∨
      (advance_turn oracle history state debug).2 =
        [build_request_body (inputItems history state),
         build_request_body (inputItems history state ++ [correctiveItem])]) ∧
    (∀ r, oracle 0 = SendOutcome.resp r → r.success = false →
      (advance_turn oracle history state debug).1 =
          Except.error (transportErrMsg r) ∧
        (advance_turn oracle history state debug).2 =
          [build_request_body (inputItems history state)]) ∧
    (∀ r v, oracle 0 = SendOutcome.resp r → r.success = true →
      r.bodyJson = some v → (extract_output_text_and_items v).1 = none →
      (advance_turn oracle history state debug).2 =
        [build_request_body (inputItems history state),
         build_request_body (inputItems history state ++ [correctiveItem])]) ∧
    (∀ r v r1, oracle 0 = SendOutcome.resp r → r.success = true →
      r.bodyJson = some v → (extract_output_text_and_items v).1 = none →
      oracle 1 = SendOutcome.resp r1 → r1.success = false →
      (advance_turn oracle history state debug).1 =
        Except.error (transportErrMsg r1)) ∧
    (∀ r v r1 v1, oracle 0 = SendOutcome.resp r → r.success = true →
      r.bodyJson = some v → (extract_output_text_and_items v).1 = none →
      oracle 1 = SendOutcome.resp r1 → r1.success = true →
      r1.bodyJson = some v1 → (extract_output_text_and_items v1).1 = none →
      (advance_turn oracle history state debug).1 =
        Except.error
          (if debug then
            "No output text found in response. Output summary: ".data ++
              (extract_output_text_and_items v1).2.2
          else "No output text found in response.".data)) := by
  have hstep : ∀ r v, r.success = true → r.bodyJson = some v →
      (extract_output_text_and_items v).1 = none →
      attemptStep (SendOutcome.resp r) =
        AttemptResult.noText (extract_output_text_and_items v).2.2 := by
    intro r v hsucc hjson hnone
    rw [attemptStep, hsucc, hjson]
    simp only [Bool.not_true, Bool.false_eq_true, if_false]
    rcases hex : extract_output_text_and_items v with ⟨topt, items, dbg⟩
    rw [hex] at hnone
    simp only at hnone
    subst hnone
    simp [hex]
  refine ⟨?_, ?_, ?_, ?_, ?_⟩
  · rw [advance_turn]
    cases attemptStep (oracle 0) with
    | error e => exact Or.inl rfl
    | done v => exact Or.inl rfl
    | noText d =>
      cases attemptStep (oracle 1) with
      | error e => exact Or.inr rfl
      | done v => exact Or.inr rfl
      | noText d1 => exact Or.inr rfl
  · intro r h0 hfail
    have ha : attemptStep (oracle 0) = AttemptResult.error (transportErrMsg r) := by
      rw [h0, attemptStep, hfail]
      rfl
    rw [advance_turn, ha]
    exact ⟨rfl, rfl⟩
  · intro r v h0 hsucc hjson hnone
    have ha : attemptStep (oracle 0) =
        AttemptResult.noText (extract_output_text_and_items v).2.2 := by
      rw [h0]; exact hstep r v hsucc hjson hnone
    rw [advance_turn, ha]
    cases attemptStep (oracle 1) with
    | error e => rfl
    | done w => rfl
    | noText d1 => rfl
  · intro r v r1 h0 hsucc hjson hnone h1 hfail1
    have ha : attemptStep (oracle 0) =
        AttemptResult.noText (extract_output_text_and_items v).2.2 := by
      rw [h0]; exact hstep r v hsucc hjson hnone
    have hb : attemptStep (oracle 1) = AttemptResult.error (transportErrMsg r1) := by
      rw [h1, attemptStep, hfail1]
      rfl
    rw [advance_turn, ha, hb]
  · intro r v r1 v1 h0 hsucc hjson hnone h1 hsucc1 hjson1 hnone1
    have ha : attemptStep (oracle 0) =
        AttemptResult.noText (extract_output_text_and_items v).2.2 := by
      rw [h0]; exact hstep r v hsucc hjson hnone
    have hb : attemptStep (oracle 1) =
        AttemptResult.noText (extract_output_text_and_items v1).2.2 := by
      rw [h1]; exact hstep r1 v1 hsucc1 hjson1 hnone1
    rw [advance_turn, ha, hb]
    rfl

/-- Witness for C2 at a concrete run: both attempts return an HTTP-success
response whose `output` array is empty and which has no `output_text`
field, so the call sends exactly the base body then the corrective retry
body, and fails with the plain no-output-text error (debug off). -/
theorem advance_turn_retry_contract_witness :
    (advance_turn
        (fun _ => SendOutcome.resp
          ⟨true, "200".data, [], some (Json.obj [("output".data, Json.arr [])])⟩)
        [] GameState.new false).1 =
      Except.error "No output text found in response.".data ∧
    (advance_turn
        (fun _ => SendOutcome.resp
          ⟨true, "200".data, [], some (Json.obj [("output".data, Json.arr [])])⟩)
        [] GameState.new false).2 =
      [build_request_body (inputItems [] GameState.new),
       build_request_body (inputItems [] GameState.new ++ [correctiveItem])] := by
  have h := advance_turn_retry_contract
    (fun _ => SendOutcome.resp
      ⟨true, "200".data, [], some (Json.obj [("output".data, Json.arr [])])⟩)
    [] GameState.new false
  refine ⟨?_, ?_⟩
  · have := h.2.2.2.2
      ⟨true, "200".data, [], some (Json.obj [("output".data, Json.arr [])])⟩
      (Json.obj [("output".data, Json.arr [])])
      ⟨true, "200".data, [], some (Json.obj [("output".data, Json.arr [])])⟩
      (Json.obj [("output".data, Json.arr [])])
      rfl rfl rfl rfl rfl rfl rfl rfl
    simpa using this
  · exact h.2.2.1
      ⟨true, "200".data, [], some (Json.obj [("output".data, Json.arr [])])⟩
      (Json.obj [("output".data, Json.arr [])])
      rfl rfl rfl rfl

/-! ## Theorems: parser round trip (C9) — split/join toolbox -/

lemma dropWhile_length_le (p : Char → Bool) (l : List Char) :
    (l.dropWhile p).length ≤ l.length := by
  induction l with
  | nil => simp
  | cons c t ih =>
    rw [List.dropWhile_cons]
    split
    · exact Nat.le_trans ih (Nat.le_succ _)
    · simp

lemma trimEndL_length_le (l : List Char) : (trimEndL l).length ≤ l.length := by
  rw [trimEndL, List.length_reverse]
  simpa using dropWhile_length_le isRustWs l.reverse

lemma dropWhile_head_false (p : Char → Bool) (c : Char) (t : List Char)
    (h : (c :: t).dropWhile p = c :: t) : p c = false := by
  rw [List.dropWhile_cons] at h
  by_cases hc : p c
  · rw [if_pos hc] at h
    have := dropWhile_length_le p t
    rw [h] at this
    simp at this
  · simpa using hc

lemma dropWhile_append_self (p : Char → Bool) (l r : List Char)
    (h : l.dropWhile p = l) (hne : l ≠ []) :
    (l ++ r).dropWhile p = l ++ r := by
  cases l with
  | nil => exact absurd rfl hne
  | cons c t =>
    have hc := dropWhile_head_false p c t h
    rw [List.cons_append, List.dropWhile_cons, hc]
    simp

lemma trimStartL_of_trimL (l : List Char) (h : trimL l = l) :
    trimStartL l = l := by
  cases l with
  | nil => rfl
  | cons c t =>
    rw [trimStartL, List.dropWhile_cons]
    by_cases hc : isRustWs c
    · exfalso
      have hlen : (trimL (c :: t)).length ≤ t.length := by
        rw [trimL]
        refine Nat.le_trans (trimEndL_length_le _) ?_
        rw [trimStartL, List.dropWhile_cons, if_pos hc]
        exact dropWhile_length_le _ _
      rw [h] at hlen
      simp at hlen
    · simp [hc]

lemma splitNl_ne_nil (t : List Char) : splitNl t ≠ [] := by
  cases t with
  | nil => simp [splitNl]
  | cons c r =>
    rw [splitNl]
    split <;> simp

lemma splitNl_cons_not_nl (c : Char) (t : List Char) (hc : c ≠ '\n') :
    splitNl (c :: t) = (c :: (splitNl t).headD []) :: (splitNl t).tail := by
  rw [splitNl]
  simp [hc]

lemma headD_mem (l : List (List Char)) (h : l ≠ []) : l.headD [] ∈ l := by
  cases l with
  | nil => exact absurd rfl h
  | cons a t => simp

lemma splitNl_cons_nl (t : List Char) : splitNl ('\n' :: t) = [] :: splitNl t := by
  rw [splitNl, if_pos rfl]

lemma intercalate_single (s a : List Char) : List.intercalate s [a] = a := by
  simp [List.intercalate]

lemma intercalate_cons_cons (s a b : List Char) (t : List (List Char)) :
    List.intercalate s (a :: b :: t) = a ++ s ++ List.intercalate s (b :: t) := by
  simp [List.intercalate, List.intersperse]

lemma splitNl_no_nl (t : List Char) : ∀ l ∈ splitNl t, ('\n' : Char) ∉ l := by
  induction t with
  | nil =>
    intro l hl
    simp [splitNl] at hl
    simp [hl]
  | cons c r ih =>
    intro l hl
    by_cases hc : c = '\n'
    · subst hc
      rw [splitNl_cons_nl] at hl
      rcases List.mem_cons.mp hl with hl | hl
      · simp [hl]
      · exact ih l hl
    · rw [splitNl_cons_not_nl c r hc] at hl
      rcases List.mem_cons.mp hl with hl | hl
      · subst hl
        intro hmem
        rcases List.mem_cons.mp hmem with h1 | h1
        · exact hc h1.symm
        · exact ih _ (headD_mem _ (splitNl_ne_nil r)) h1
      · exact ih l (List.mem_of_mem_tail hl)

lemma intercalate_splitNl (t : List Char) :
    List.intercalate ['\n'] (splitNl t) = t := by
  induction t with
  | nil =>
    rw [show splitNl [] = [[]] from rfl, intercalate_single]
  | cons c r ih =>
    rcases hsp : splitNl r with _ | ⟨h0, t0⟩
    · exact absurd hsp (splitNl_ne_nil r)
    · by_cases hc : c = '\n'
      · subst hc
        rw [splitNl_cons_nl, hsp, intercalate_cons_cons]
        rw [hsp] at ih
        simp [ih]
      · rw [splitNl_cons_not_nl c r hc, hsp]
        rw [hsp] at ih
        simp only [List.headD_cons, List.tail_cons]
        cases t0 with
        | nil =>
          rw [intercalate_single] at ih
          rw [intercalate_single, ih]
        | cons t1 t2 =>
          rw [intercalate_cons_cons] at ih
          rw [intercalate_cons_cons]
          simp only [List.cons_append, List.append_assoc] at ih ⊢
          rw [ih]

lemma splitNl_single (l : List Char) (h : ('\n' : Char) ∉ l) :
    splitNl l = [l] := by
  induction l with
  | nil => rfl
  | cons c t ih =>
    have hc : c ≠ '\n' := fun hcc => h (by simp [hcc])
    rw [splitNl_cons_not_nl c t hc, ih (fun hm => h (List.mem_cons_of_mem c hm))]
    rfl

lemma splitNl_append_not_nl (l t : List Char) (h : ('\n' : Char) ∉ l) :
    splitNl (l ++ t) = (l ++ (splitNl t).headD []) :: (splitNl t).tail := by
  induction l with
  | nil =>
    rcases hsp : splitNl t with _ | ⟨h0, t0⟩
    · exact absurd hsp (splitNl_ne_nil t)
    · simp [hsp]
  | cons c l2 ih =>
    have hc : c ≠ '\n' := fun hcc => h (by simp [hcc])
    rw [List.cons_append, splitNl_cons_not_nl c (l2 ++ t) hc,
      ih (fun hm => h (List.mem_cons_of_mem c hm))]
    simp

lemma splitNl_intercalate (L : List (List Char)) (hne : L ≠ [])
    (hnl : ∀ l ∈ L, ('\n' : Char) ∉ l) :
    splitNl (List.intercalate ['\n'] L) = L := by
  induction L with
  | nil => exact absurd rfl hne
  | cons a rest ih =>
    cases rest with
    | nil =>
      rw [intercalate_single]
      exact splitNl_single a (hnl a (by simp))
    | cons b rest2 =>
      rw [intercalate_cons_cons]
      rw [List.append_assoc]
      rw [splitNl_append_not_nl a _ (hnl a (by simp))]
      rw [show ['\n'] ++ List.intercalate ['\n'] (b :: rest2) =
        '\n' :: List.intercalate ['\n'] (b :: rest2) from rfl]
      rw [splitNl_cons_nl]
      rw [ih (by simp) (fun l hl => hnl l (List.mem_cons_of_mem a hl))]
      simp

lemma stripCr_getLast (l : List Char) (hne : l ≠ []) (h : stripCr l = l) :
    l.getLast? ≠ some '\r' := by
  intro hl
  rw [stripCr, if_pos hl] at h
  have hlen := congrArg List.length h
  rw [List.length_dropLast] at hlen
  have hpos : 0 < l.length := List.length_pos.mpr hne
  omega

lemma stripCr_append (x t1 : List Char) (h1 : t1 ≠ []) (h : stripCr t1 = t1) :
    stripCr (x ++ t1) = x ++ t1 := by
  have hg : (x ++ t1).getLast? = t1.getLast? := by
    rw [List.getLast?_append]
    cases hgl : t1.getLast? with
    | none =>
      exact absurd (List.getLast?_eq_none_iff.mp hgl) h1
    | some a => rfl
  rw [stripCr, hg, if_neg (stripCr_getLast t1 h1 h)]

lemma map_stripCr_self (L : List (List Char)) (hcr : ∀ l ∈ L, stripCr l = l) :
    L.map stripCr = L := by
  induction L with
  | nil => rfl
  | cons a rest ih =>
    rw [List.map_cons, hcr a (by simp), ih (fun l hl => hcr l (List.mem_cons_of_mem a hl))]

lemma rustLines_intercalate (L : List (List Char)) (hne : L ≠ [])
    (hnl : ∀ l ∈ L, ('\n' : Char) ∉ l) (hcr : ∀ l ∈ L, stripCr l = l)
    (hlast : L.getLast? ≠ some []) :
    rustLines (List.intercalate ['\n'] L) = L := by
  rw [rustLines]
  simp only [splitNl_intercalate L hne hnl, if_neg hlast]
  exact map_stripCr_self L hcr

/-- The individual lines a block contributes to its serialization: the
label line followed by the continuation lines of its text. -/
def blockLines (b : ParsedEntry) : List (List Char) :=
  (b.speaker ++ ": ".data ++ (splitNl b.text).headD []) :: (splitNl b.text).tail

lemma intercalate_append_left (s a x : List Char) (t : List (List Char)) :
    List.intercalate s ((a ++ x) :: t) = a ++ List.intercalate s (x :: t) := by
  cases t with
  | nil => rw [intercalate_single, intercalate_single]
  | cons b t2 =>
    rw [intercalate_cons_cons, intercalate_cons_cons]
    simp [List.append_assoc]

lemma serializeBlock_eq (b : ParsedEntry) :
    serializeBlock b = List.intercalate ['\n'] (blockLines b) := by
  rw [serializeBlock, blockLines]
  rcases hsp : splitNl b.text with _ | ⟨h0, t0⟩
  · exact absurd hsp (splitNl_ne_nil b.text)
  · have hjoin : List.intercalate ['\n'] (h0 :: t0) = b.text := by
      rw [← hsp]
      exact intercalate_splitNl b.text
    simp only [List.headD_cons, List.tail_cons]
    rw [intercalate_append_left, hjoin]

lemma intercalate_append_ne (s : List Char) (L1 L2 : List (List Char))
    (h1 : L1 ≠ []) (h2 : L2 ≠ []) :
    List.intercalate s (L1 ++ L2) =
      List.intercalate s L1 ++ s ++ List.intercalate s L2 := by
  induction L1 with
  | nil => exact absurd rfl h1
  | cons a t ih =>
    cases t with
    | nil =>
      cases L2 with
      | nil => exact absurd rfl h2
      | cons b t2 =>
        rw [List.cons_append, List.nil_append, intercalate_cons_cons,
          intercalate_single]
    | cons a2 t2 =>
      rw [List.cons_append, intercalate_cons_cons]
      rw [show (a2 :: t2) ++ L2 = a2 :: (t2 ++ L2) from rfl] at ih ⊢
      rw [intercalate_cons_cons, ih (by simp)]
      simp [List.append_assoc]

lemma serializeBlocks_eq (bs : List ParsedEntry) :
    serializeBlocks bs = List.intercalate ['\n'] (bs.flatMap blockLines) := by
  induction bs with
  | nil => rfl
  | cons b rest ih =>
    cases rest with
    | nil =>
      rw [serializeBlocks, List.map_cons, List.map_nil, intercalate_single,
        List.flatMap_cons, List.flatMap_nil, List.append_nil]
      exact serializeBlock_eq b
    | cons b2 rest2 =>
      rw [serializeBlocks, List.map_cons, List.map_cons, intercalate_cons_cons]
      rw [show List.intercalate ['\n'] (serializeBlock b2 :: List.map serializeBlock rest2) =
        serializeBlocks (b2 :: rest2) from rfl]
      rw [ih, List.flatMap_cons b (b2 :: rest2) blockLines]
      rw [intercalate_append_ne ['\n'] (blockLines b)
        ((b2 :: rest2).flatMap blockLines)
        (by rw [blockLines]; simp)
        (by rw [List.flatMap_cons, blockLines]; simp)]
      rw [← serializeBlock_eq]

lemma wfBlock_spec (b : ParsedEntry) (h : wfBlock b = true) :
    trimL b.speaker = b.speaker ∧ b.speaker ≠ [] ∧ b.speaker.length ≤ 40 ∧
    b.speaker.any Char.isAlpha = true ∧ b.speaker.all labelChar = true ∧
    (is_narrator_label b.speaker = true → b.speaker = "Narrator".data) ∧
    is_disallowed_speaker b.speaker = false ∧
    b.text ≠ [] ∧ trimStartL b.text = b.text ∧ trimEndL b.text = b.text ∧
    (∀ l ∈ splitNl b.text, l ≠ []) ∧
    (∀ l ∈ splitNl b.text, stripCr l = l) ∧
    (∀ l ∈ (splitNl b.text).tail, parse_speaker_label l = none) ∧
    (is_narrator_label b.speaker = false →
      starts_with_you_action ((splitNl b.text).headD []) = false) := by
  rw [wfBlock] at h
  simp only [Bool.and_eq_true, decide_eq_true_eq, Bool.not_eq_eq_eq_not,
    Bool.not_true, List.all_eq_true, Bool.or_eq_true] at h
  obtain ⟨⟨⟨⟨⟨⟨⟨⟨⟨⟨⟨⟨⟨w1, w2⟩, w3⟩, w4⟩, w5⟩, w6⟩, w7⟩, w8⟩, w9⟩, w10⟩, w14⟩,
    w11⟩, w12⟩, w13⟩ := h
  refine ⟨w1, ?_, w3, w4, List.all_eq_true.mpr w5, ?_, ?_, ?_, w9, w10, ?_, ?_, ?_, ?_⟩
  · intro hnil
    rw [hnil] at w2
    simp at w2
  · intro hn
    rcases w6 with w6 | w6
    · rw [hn] at w6
      simp at w6
    · exact w6
  · simpa using w7
  · intro hnil
    rw [hnil] at w8
    simp at w8
  · intro l hl
    intro hnil
    have := w14 l hl
    rw [hnil] at this
    simp at this
  · intro l hl
    exact w11 l hl
  · intro l hl
    have := w12 l hl
    simpa using this
  · intro hn
    rcases w13 with w13 | w13
    · rw [hn] at w13
      simp at w13
    · simpa using w13

lemma splitOnceAt_append (sp rest : List Char) (h : (':' : Char) ∉ sp) :
    splitOnceAt ':' (sp ++ ':' :: rest) = some (sp, rest) := by
  induction sp with
  | nil =>
    rw [List.nil_append, splitOnceAt, if_pos rfl]
  | cons c t ih =>
    have hc : c ≠ ':' := fun hcc => h (by simp [hcc])
    rw [List.cons_append, splitOnceAt, if_neg hc,
      ih (fun hm => h (List.mem_cons_of_mem c hm))]
    rfl

lemma labelChar_no_colon (sp : List Char) (h : sp.all labelChar = true) :
    (':' : Char) ∉ sp := by
  intro hmem
  have := List.all_eq_true.mp h _ hmem
  have hf : labelChar ':' = false := by decide
  rw [hf] at this
  exact absurd this (by simp)

lemma labelChar_no_nl (sp : List Char) (h : sp.all labelChar = true) :
    ('\n' : Char) ∉ sp := by
  intro hmem
  have := List.all_eq_true.mp h _ hmem
  have hf : labelChar '\n' = false := by decide
  rw [hf] at this
  exact absurd this (by simp)

lemma parse_speaker_label_serialized (sp t1 : List Char)
    (h1 : trimL sp = sp) (h2 : sp ≠ []) (h3 : sp.length ≤ 40)
    (h4 : sp.any Char.isAlpha = true) (h5 : sp.all labelChar = true)
    (h6 : is_narrator_label sp = true → sp = "Narrator".data)
    (h7 : trimStartL t1 = t1) :
    parse_speaker_label (sp ++ ": ".data ++ t1) = some (sp, t1) := by
  have hassoc : sp ++ ": ".data ++ t1 = sp ++ (':' :: ' ' :: t1) := by
    rw [List.append_assoc]
    rfl
  have hline : trimStartL (sp ++ (':' :: ' ' :: t1)) = sp ++ (':' :: ' ' :: t1) :=
    dropWhile_append_self isRustWs sp _ (trimStartL_of_trimL sp h1) h2
  have hsplit : splitOnceAt ':' (sp ++ ':' :: (' ' :: t1)) = some (sp, ' ' :: t1) :=
    splitOnceAt_append sp (' ' :: t1) (labelChar_no_colon sp h5)
  rw [parse_speaker_label, hassoc]
  simp only [hline, hsplit, h1]
  rw [if_neg ?hc1]
  case hc1 =>
    simp only [Bool.or_eq_true, not_or]
    constructor
    · simpa using h2
    · simpa using Nat.not_lt.mpr h3
  rw [if_neg (by simp [h4])]
  rw [if_neg (by simp [h5])]
  have hrest : trimStartL (' ' :: t1) = t1 := by
    rw [trimStartL, List.dropWhile_cons, if_pos (by decide)]
    exact h7
  by_cases hn : is_narrator_label sp
  · rw [if_pos hn, hrest, h6 hn]
  · rw [if_neg hn, hrest]

lemma processLine_label (st : PState) (sp t1 line : List Char)
    (hpl : parse_speaker_label line = some (sp, t1))
    (hdis : is_disallowed_speaker sp = false)
    (hnar : is_narrator_label sp = true ∨ split_misattributed_narration t1 = none) :
    processLine st line =
      ⟨(match st.currentSpeaker with
        | some prev => push_or_merge_entry st.entries prev (trimEndL st.currentText)
        | none => st.entries), some sp, t1, some sp⟩ := by
  rw [processLine, hpl]
  simp only [hdis, Bool.false_eq_true, if_false]
  by_cases hn : is_narrator_label sp
  · rw [if_neg (by simp [hn])]
  · rw [if_pos (by simp [hn])]
    rcases hnar with hnar | hnar
    · exact absurd hnar (by simp [hn])
    · rw [hnar]

lemma processLine_cont (st : PState) (sp : List Char) (line : List Char)
    (hpl : parse_speaker_label line = none) (hcs : st.currentSpeaker = some sp) :
    processLine st line =
      ⟨st.entries, some sp,
        (if st.currentText.isEmpty then line else st.currentText ++ '\n' :: line),
        st.lastSpeaker⟩ := by
  rw [processLine, hpl]
  simp [hcs]

lemma foldl_cont (ls : List (List Char)) :
    ∀ (E : List ParsedEntry) (sp ct : List Char) (last : Option (List Char)),
      ct ≠ [] → (∀ l ∈ ls, parse_speaker_label l = none) →
      ls.foldl processLine ⟨E, some sp, ct, last⟩ =
        ⟨E, some sp, ct ++ ls.flatMap (fun l => '\n' :: l), last⟩ := by
  induction ls with
  | nil =>
    intro E sp ct last hct hl
    simp
  | cons l rest ih =>
    intro E sp ct last hct hl
    rw [List.foldl_cons,
      processLine_cont ⟨E, some sp, ct, last⟩ sp l (hl l (by simp)) rfl]
    rw [if_neg (by simpa using hct)]
    rw [ih E sp (ct ++ '\n' :: l) last (by simp) (fun x hx => hl x (List.mem_cons_of_mem l hx))]
    simp [List.flatMap_cons, List.append_assoc]

lemma mergeLast_of_ne (sp t : List Char) :
    ∀ E : List ParsedEntry,
      (E = [] ∨ ∃ e, E.getLast? = some e ∧ eqIC e.speaker sp = false) →
      mergeLast sp t E = E ++ [⟨sp, t⟩] := by
  intro E
  induction E with
  | nil => intro _; rfl
  | cons a tail ih =>
    intro h
    cases tail with
    | nil =>
      rcases h with h | ⟨e, he, hne⟩
      · simp at h
      · simp only [List.getLast?_singleton, Option.some.injEq] at he
        subst he
        rw [mergeLast, if_neg (by simp [hne])]
        rfl
    | cons b tail2 =>
      rcases h with h | ⟨e, he, hne⟩
      · simp at h
      · rw [List.getLast?_cons_cons] at he
        rw [mergeLast, ih (Or.inr ⟨e, he, hne⟩)]
        rfl

lemma push_or_merge_append (E : List ParsedEntry) (sp T : List Char)
    (hT : trimEndL T = T) (hTne : T ≠ [])
    (h : E = [] ∨ ∃ e, E.getLast? = some e ∧ eqIC e.speaker sp = false) :
    push_or_merge_entry E sp T = E ++ [⟨sp, T⟩] := by
  rw [push_or_merge_entry]
  simp only [hT]
  rw [if_neg (by simpa using hTne)]
  exact mergeLast_of_ne sp T E h

lemma blockHead_trimStart (T : List Char) (hne : T ≠ []) (hts : trimStartL T = T) :
    trimStartL ((splitNl T).headD []) = (splitNl T).headD [] := by
  cases T with
  | nil => exact absurd rfl hne
  | cons c r =>
    have hc : isRustWs c = false := dropWhile_head_false isRustWs c r hts
    have hcn : c ≠ '\n' := by
      intro hcc
      rw [hcc] at hc
      exact absurd hc (by decide)
    rw [splitNl_cons_not_nl c r hcn]
    simp only [List.headD_cons]
    rw [trimStartL, List.dropWhile_cons, hc]
    simp

lemma text_head_flatMap (T : List Char) :
    ∀ h0 t0, splitNl T = h0 :: t0 →
      h0 ++ t0.flatMap (fun l => '\n' :: l) = T := by
  intro h0 t0 hsp
  have hj := intercalate_splitNl T
  rw [hsp] at hj
  rw [← hj]
  clear hj hsp
  induction t0 generalizing h0 with
  | nil =>
    rw [intercalate_single]
    simp
  | cons t1 t2 ih =>
    rw [intercalate_cons_cons, List.flatMap_cons]
    rw [← ih t1]
    simp [List.append_assoc]

lemma foldl_blockLines (b : ParsedEntry) (hwf : wfBlock b = true) (st : PState) :
    (blockLines b).foldl processLine st =
      ⟨(match st.currentSpeaker with
        | some prev => push_or_merge_entry st.entries prev (trimEndL st.currentText)
        | none => st.entries), some b.speaker, b.text, some b.speaker⟩ := by
  obtain ⟨w1, w2, w3, w4, w5, w6, w7, w8, w9, w10, w14, w11, w12, w13⟩ :=
    wfBlock_spec b hwf
  have ht1mem : (splitNl b.text).headD [] ∈ splitNl b.text :=
    headD_mem _ (splitNl_ne_nil b.text)
  have ht1ne : (splitNl b.text).headD [] ≠ [] := w14 _ ht1mem
  have hparse : parse_speaker_label
      (b.speaker ++ ": ".data ++ (splitNl b.text).headD []) =
        some (b.speaker, (splitNl b.text).headD []) :=
    parse_speaker_label_serialized b.speaker _ w1 w2 w3 w4 w5 w6
      (blockHead_trimStart b.text w8 w9)
  have hnar : is_narrator_label b.speaker = true ∨
      split_misattributed_narration ((splitNl b.text).headD []) = none := by
    by_cases hn : is_narrator_label b.speaker
    · exact Or.inl hn
    · refine Or.inr ?_
      rw [split_misattributed_narration, w13 (by simpa using hn)]
      rfl
  rw [blockLines, List.foldl_cons, processLine_label st b.speaker _ _ hparse w7 hnar]
  rcases hsp : splitNl b.text with _ | ⟨h0, t0⟩
  · exact absurd hsp (splitNl_ne_nil b.text)
  · rw [hsp] at ht1ne
    simp only [List.headD_cons, List.tail_cons] at ht1ne ⊢
    rw [foldl_cont t0 _ b.speaker h0 (some b.speaker) ht1ne
      (fun l hl => w12 l (by rw [hsp]; simpa using hl))]
    rw [text_head_flatMap b.text h0 t0 hsp]

lemma blockLines_no_nl (b : ParsedEntry) (hwf : wfBlock b = true) :
    ∀ l ∈ blockLines b, ('\n' : Char) ∉ l := by
  obtain ⟨w1, w2, w3, w4, w5, w6, w7, w8, w9, w10, w14, w11, w12, w13⟩ :=
    wfBlock_spec b hwf
  intro l hl
  rw [blockLines] at hl
  rcases List.mem_cons.mp hl with hl | hl
  · subst hl
    intro hmem
    rcases List.mem_append.mp hmem with hmem | hmem
    · rcases List.mem_append.mp hmem with hmem | hmem
      · exact labelChar_no_nl b.speaker w5 hmem
      · simp at hmem
    · exact splitNl_no_nl b.text _ (headD_mem _ (splitNl_ne_nil b.text)) hmem
  · exact splitNl_no_nl b.text l (List.mem_of_mem_tail hl)

lemma blockLines_stripCr (b : ParsedEntry) (hwf : wfBlock b = true) :
    ∀ l ∈ blockLines b, stripCr l = l := by
  obtain ⟨w1, w2, w3, w4, w5, w6, w7, w8, w9, w10, w14, w11, w12, w13⟩ :=
    wfBlock_spec b hwf
  intro l hl
  rw [blockLines] at hl
  rcases List.mem_cons.mp hl with hl | hl
  · subst hl
    exact stripCr_append (b.speaker ++ ": ".data) _
      (w14 _ (headD_mem _ (splitNl_ne_nil b.text)))
      (w11 _ (headD_mem _ (splitNl_ne_nil b.text)))
  · exact w11 l (List.mem_of_mem_tail hl)

lemma blockLines_getLast_ne (b : ParsedEntry) (hwf : wfBlock b = true) :
    ∀ x, (blockLines b).getLast? = some x → x ≠ [] := by
  obtain ⟨w1, w2, w3, w4, w5, w6, w7, w8, w9, w10, w14, w11, w12, w13⟩ :=
    wfBlock_spec b hwf
  intro x hx
  rw [blockLines] at hx
  cases htail : (splitNl b.text).tail with
  | nil =>
    rw [htail, List.getLast?_singleton] at hx
    intro hnil
    rw [hnil] at hx
    have hexpr : b.speaker ++ ": ".data ++ (splitNl b.text).headD [] = [] :=
      Option.some.inj hx
    rcases List.append_eq_nil.mp hexpr with ⟨h1, _⟩
    rcases List.append_eq_nil.mp h1 with ⟨hsp, _⟩
    exact w2 hsp
  | cons l2 t2 =>
    rw [htail, List.getLast?_cons_cons] at hx
    have hmem : x ∈ l2 :: t2 := List.mem_of_mem_getLast? hx
    rw [← htail] at hmem
    exact w14 x (List.mem_of_mem_tail hmem)

lemma flatMap_blockLines_getLast (blocks : List ParsedEntry) (hne : blocks ≠ [])
    (hwf : ∀ b ∈ blocks, wfBlock b = true) :
    (blocks.flatMap blockLines).getLast? ≠ some [] := by
  induction blocks with
  | nil => exact absurd rfl hne
  | cons b rest ih =>
    cases rest with
    | nil =>
      rw [List.flatMap_cons, List.flatMap_nil, List.append_nil]
      intro h
      exact blockLines_getLast_ne b (hwf b (by simp)) [] h rfl
    | cons b2 rest2 =>
      rw [List.flatMap_cons, List.getLast?_append]
      have hne2 : ((b2 :: rest2).flatMap blockLines) ≠ [] := by
        rw [List.flatMap_cons, blockLines]
        simp
      cases hgl : ((b2 :: rest2).flatMap blockLines).getLast? with
      | none =>
        exact absurd (List.getLast?_eq_none_iff.mp hgl) hne2
      | some y =>
        have hy := ih (by simp) (fun x hx => hwf x (List.mem_cons_of_mem b hx))
        rw [hgl] at hy
        simpa using hy

lemma parse_chain (bs : List ParsedEntry) :
    ∀ (E : List ParsedEntry) (S T : List Char),
      (∀ b ∈ bs, wfBlock b = true) →
      distinctAdj (⟨S, T⟩ :: bs) = true →
      trimEndL T = T → T ≠ [] →
      (E = [] ∨ ∃ e, E.getLast? = some e ∧ eqIC e.speaker S = false) →
      finishParse
          ((bs.flatMap blockLines).foldl processLine ⟨E, some S, T, some S⟩) =
        ⟨E ++ ⟨S, T⟩ :: bs, some (bs.getLastD ⟨S, T⟩).speaker⟩ := by
  induction bs with
  | nil =>
    intro E S T _ _ hT hTne hlast
    rw [List.flatMap_nil, List.foldl_nil, finishParse]
    simp only [List.getLastD_nil]
    rw [hT, push_or_merge_append E S T hT hTne hlast]
  | cons b rest ih =>
    intro E S T hwf hadj hT hTne hlast
    rw [distinctAdj] at hadj
    rcases (Bool.and_eq_true _ _).mp hadj with ⟨hne1, hadj2⟩
    obtain ⟨v1, v2, v3, v4, v5, v6, v7, v8, v9, v10, v14, v11, v12, v13⟩ :=
      wfBlock_spec b (hwf b (by simp))
    rw [List.flatMap_cons, List.foldl_append,
      foldl_blockLines b (hwf b (by simp)) ⟨E, some S, T, some S⟩]
    simp only
    rw [hT, push_or_merge_append E S T hT hTne hlast]
    have hres := ih (E ++ [⟨S, T⟩]) b.speaker b.text
      (fun x hx => hwf x (List.mem_cons_of_mem b hx))
      hadj2 v10 v8
      (Or.inr ⟨⟨S, T⟩, List.getLast?_concat E, by simpa using hne1⟩)
    rw [hres]
    simp only [List.append_assoc, List.cons_append, List.nil_append,
      List.getLastD_eq_getLast?, ParsedReply.mk.injEq, Option.some.injEq]
    refine ⟨trivial, ?_⟩
    cases rest with
    | nil => simp
    | cons r rs =>
      rw [List.getLast?_cons_cons]
      cases hgl : (r :: rs).getLast? with
      | none => exact absurd (List.getLast?_eq_none_iff.mp hgl) (by simp)
      | some y => simp

/-- C9 (amended): parsing the `Speaker: text` serialization of a
well-formed block sequence — valid self-normalizing allowed speakers, no
two adjacent speakers case-insensitively equal, texts nonempty and trimmed
with no empty or label-bearing or CR-terminated line, and no non-Narrator
text opening with a misattribution trigger — reproduces exactly the same
block sequence. -/
theorem parse_serialize_roundtrip (bs : List ParsedEntry)
    (hwf : ∀ b ∈ bs, wfBlock b = true) (hadj : distinctAdj bs = true) :
    (parse_speaker_lines (serializeBlocks bs)).entries = bs := by
  cases bs with
  | nil => rfl
  | cons b0 rest =>
    have hwf0 := hwf b0 (by simp)
    obtain ⟨w1, w2, w3, w4, w5, w6, w7, w8, w9, w10, w14, w11, w12, w13⟩ :=
      wfBlock_spec b0 hwf0
    rw [parse_speaker_lines, serializeBlocks_eq]
    rw [rustLines_intercalate ((b0 :: rest).flatMap blockLines)
      (by rw [List.flatMap_cons, blockLines]; simp)
      (fun l hl => by
        rcases List.mem_flatMap.mp hl with ⟨b, hb, hlb⟩
        exact blockLines_no_nl b (hwf b hb) l hlb)
      (fun l hl => by
        rcases List.mem_flatMap.mp hl with ⟨b, hb, hlb⟩
        exact blockLines_stripCr b (hwf b hb) l hlb)
      (flatMap_blockLines_getLast (b0 :: rest) (by simp) hwf)]
    rw [parseLines, List.flatMap_cons, List.foldl_append,
      foldl_blockLines b0 hwf0 ⟨[], none, [], none⟩]
    have hchain := parse_chain rest [] b0.speaker b0.text
      (fun x hx => hwf x (List.mem_cons_of_mem b0 hx))
      hadj w10 w8 (Or.inl rfl)
    rw [hchain]
    simp

/-- C9 counterexample: the input `Clerk: You pick up the can. You walk away
now.` is a single line carrying one recognized label (one block per
recognized label), yet serializing its parse as `Speaker: text` and
re-parsing does not reproduce the block sequence: the Clerk block's text
begins with a `you `+action-verb phrase, so the misattribution repair
reattributes it to Narrator and merges it into the preceding block. -/
theorem parse_roundtrip_counterexample :
    ((rustLines "Clerk: You pick up the can. You walk away now.".data).length = 1 ∧
      (parse_speaker_label
        "Clerk: You pick up the can. You walk away now.".data).isSome = true) ∧
    (parse_speaker_lines (serializeBlocks
        (parse_speaker_lines
          "Clerk: You pick up the can. You walk away now.".data).entries)).entries ≠
      (parse_speaker_lines
        "Clerk: You pick up the can. You walk away now.".data).entries := by
  decide

/-- Witness for the amended C9 at a concrete well-formed block sequence. -/
theorem parse_serialize_roundtrip_witness :
    (parse_speaker_lines (serializeBlocks
        [⟨"Narrator".data, "You see a dusty counter.".data⟩,
         ⟨"Clerk".data, "\"Hello.\"".data⟩])).entries =
      [⟨"Narrator".data, "You see a dusty counter.".data⟩,
       ⟨"Clerk".data, "\"Hello.\"".data⟩] :=
  parse_serialize_roundtrip
    [⟨"Narrator".data, "You see a dusty counter.".data⟩,
     ⟨"Clerk".data, "\"Hello.\"".data⟩]
    (by decide) (by decide)
